import Mathlib

/-!
Shallow embedding of the generic CRUD data service of the
data-insights-admin-panel repository (source: the services module,
`generateCrudService` and the relationship query functions).

Records are modelled as association lists from field names to values;
field lookup takes the first binding, so consing a binding on the front
is exactly the JavaScript object-spread override semantics.  The store
state is an ordered list of records, as in the source arrays.
-/

/-- A JavaScript value as it occurs in the record fields of this repository:
a number (all numeric fields here are integral), a string, or NaN (which
arises from the Number coercion in create when a key field is not numeric).
Number coercion of a non-numeric string is modelled as NaN; in this
repository every primary-key field is numeric (seed data and create both
store numbers), so that case is unreachable for key fields. -/
inductive Value where
  | num (n : Int)
  | str (s : String)
  | nan
deriving DecidableEq, Repr

/-- JavaScript strict equality (the === operator) on values: numbers compare
by value, strings by value, NaN compares unequal to everything including
itself, and values of different kinds are never equal (no coercion). -/
def jsEq : Value → Value → Bool
  | .num a, .num b => a == b
  | .str a, .str b => a == b
  | _, _ => false

/-- A record (a plain JavaScript object): a list of field bindings, looked up
first-match-first. -/
abbrev JsRecord := List (String × Value)

/-- Reading a field of a record: the first binding for the name, absence
modelling the undefined result of reading a missing property. -/
def getField (r : JsRecord) (k : String) : Option Value :=
  (List.find? (fun p => p.1 == k) r).map (fun p => p.2)

/-- The test item[primaryKey] === id of the source: reading an absent
property gives undefined, which is strictly unequal to any number or
string id, hence the none case is false. -/
def fieldEq (r : JsRecord) (pk : String) (id : Value) : Bool :=
  match getField r pk with
  | some v => jsEq v id
  | none => false

/-- JavaScript Number coercion as it applies to the values key fields take
in this repository: a number is itself, anything else (string, NaN,
undefined) is NaN, modelled as none.  (Number of a numeric string would
parse in JavaScript; no key field of this repository ever holds a string,
so the difference is unreachable.) -/
def toNumber : Option Value → Option Int
  | some (.num n) => some n
  | _ => none

/-- Number(i[primaryKey]) of the create operation. -/
def keyNumber (r : JsRecord) (pk : String) : Option Int :=
  toNumber (getField r pk)

/-- Math.max on two operands, none standing for NaN, which poisons. -/
def jsMax : Option Int → Option Int → Option Int
  | some a, some b => some (max a b)
  | _, _ => none

/-- Math.max over the spread list of key numbers (the source applies it to a
non-empty list; on the empty list this none is never consulted). -/
def maxAll : List (Option Int) → Option Int
  | [] => none
  | x :: xs => List.foldl jsMax x xs

namespace DataService

/-- getAll: returns a shallow copy of the array ([...items]); as a list of
immutable records this is the list itself. -/
def getAll (items : List JsRecord) : List JsRecord :=
  items

/-- getById(id): items.find(item => item[primaryKey] === id). -/
def getById (pk : String) (id : Value) (items : List JsRecord) : Option JsRecord :=
  List.find? (fun r => fieldEq r pk id) items

/-- create(item): maxId = items.length > 0 ? Math.max(...items.map(i =>
Number(i[primaryKey]))) : 0; newId = maxId + 1; newItem = { ...item,
[primaryKey]: newId } (the spread override is the front binding under
first-match lookup); items.push(newItem); returns (newItem, new state). -/
def create (pk : String) (fields : JsRecord) (items : List JsRecord) :
    JsRecord × List JsRecord :=
  let maxId : Option Int :=
    if items.length > 0 then maxAll (items.map (fun r => keyNumber r pk)) else some 0
  let newIdVal : Value :=
    match maxId with
    | some m => .num (m + 1)
    | none => .nan
  let newItem : JsRecord := (pk, newIdVal) :: fields
  (newItem, items ++ [newItem])

/-- update(id, updates): index = items.findIndex(item => item[primaryKey]
=== id); if -1 return undefined; else items[index] = { ...items[index],
...updates } and return it.  Replacing the first matching record is
expressed structurally; the spread { ...old, ...updates } is updates ++ old
under first-match lookup (updates win, other fields fall through to old). -/
def update (pk : String) (id : Value) (updates : JsRecord) :
    List JsRecord → Option JsRecord × List JsRecord
  | [] => (none, [])
  | r :: rs =>
    if fieldEq r pk id then
      let merged : JsRecord := updates ++ r
      (some merged, merged :: rs)
    else
      let res := update pk id updates rs
      (res.1, r :: res.2)

/-- delete(id): filtered = items.filter(item => item[primaryKey] !== id);
if filtered.length === items.length return false; else replace the array
contents with filtered and return true. -/
def delete (pk : String) (id : Value) (items : List JsRecord) :
    Bool × List JsRecord :=
  let filtered := items.filter (fun r => !(fieldEq r pk id))
  if filtered.length == items.length then (false, items)
  else (true, filtered)

end DataService

/-- getBusinessOffers(businessId): offers.filter(offer => offer.B_ID ===
businessId). -/
def getBusinessOffers (offers : List JsRecord) (businessId : Int) : List JsRecord :=
  offers.filter (fun o => fieldEq o "B_ID" (.num businessId))

/-- getBusinessFeedback(businessId): feedbacks.filter(feedback =>
feedback.B_ID === businessId). -/
def getBusinessFeedback (feedbacks : List JsRecord) (businessId : Int) : List JsRecord :=
  feedbacks.filter (fun f => fieldEq f "B_ID" (.num businessId))

/-- getBusinessAnalytics(businessId): analytics.filter(analytic =>
analytic.B_ID === businessId). -/
def getBusinessAnalytics (analytics : List JsRecord) (businessId : Int) : List JsRecord :=
  analytics.filter (fun a => fieldEq a "B_ID" (.num businessId))

/-- getCustomerTransactions(customerId): transactions.filter(transaction =>
transaction.C_ID === customerId). -/
def getCustomerTransactions (transactions : List JsRecord) (customerId : Int) : List JsRecord :=
  transactions.filter (fun t => fieldEq t "C_ID" (.num customerId))

/-- getCustomerTier(customerId): customerTiers.find(tier => tier.C_ID ===
customerId) — a find, returning the first match or undefined, not a filter. -/
def getCustomerTier (customerTiers : List JsRecord) (customerId : Int) : Option JsRecord :=
  customerTiers.find? (fun t => fieldEq t "C_ID" (.num customerId))

/-- getCustomerReferrals(customerId): referralPrograms.filter(referral =>
referral.Referred_C_id === customerId). -/
def getCustomerReferrals (referralPrograms : List JsRecord) (customerId : Int) : List JsRecord :=
  referralPrograms.filter (fun r => fieldEq r "Referred_C_id" (.num customerId))

/-- getCustomerFeedback(customerId): feedbacks.filter(feedback =>
feedback.C_ID === customerId). -/
def getCustomerFeedback (feedbacks : List JsRecord) (customerId : Int) : List JsRecord :=
  feedbacks.filter (fun f => fieldEq f "C_ID" (.num customerId))

/-- getCustomerFraudDetections(customerId): fraudDetections.filter(fraud =>
fraud.C_ID === customerId). -/
def getCustomerFraudDetections (fraudDetections : List JsRecord) (customerId : Int) : List JsRecord :=
  fraudDetections.filter (fun f => fieldEq f "C_ID" (.num customerId))

/-- getTransactionRedemptions(transactionId): redemptions.filter(redemption
=> redemption.T_ID === transactionId). -/
def getTransactionRedemptions (redemptions : List JsRecord) (transactionId : Int) : List JsRecord :=
  redemptions.filter (fun r => fieldEq r "T_ID" (.num transactionId))

/-- The sequence of primary-key values of a store state, in order. -/
def keysOf (pk : String) (items : List JsRecord) : List (Option Value) :=
  items.map (fun r => getField r pk)

/-- Primary-key values are pairwise distinct within the sequence. -/
def DistinctKeys (pk : String) (items : List JsRecord) : Prop :=
  (keysOf pk items).Nodup

instance (pk : String) (items : List JsRecord) : Decidable (DistinctKeys pk items) :=
  List.nodupDecidable (keysOf pk items)

/-- Every record of the sequence carries a numeric value under the
primary-key field (true of every store of this repository). -/
def NumericKeys (pk : String) (items : List JsRecord) : Prop :=
  ∀ r ∈ items, (keyNumber r pk).isSome = true

instance (pk : String) (items : List JsRecord) : Decidable (NumericKeys pk items) :=
  List.decidableBAll _ items

/-! ### Basic lemmas about values and field lookup -/

theorem jsEq_eq_of_true {a b : Value} (h : jsEq a b = true) : a = b := by
  cases a <;> cases b <;> simp_all [jsEq]

theorem jsEq_num_num (a b : Int) : jsEq (Value.num a) (Value.num b) = (a == b) := rfl

theorem getField_cons_self (k : String) (v : Value) (r : JsRecord) :
    getField ((k, v) :: r) k = some v := by
  simp [getField, List.find?]

theorem getField_cons_ne (k k' : String) (v : Value) (r : JsRecord) (h : k' ≠ k) :
    getField ((k, v) :: r) k' = getField r k' := by
  have hb : (k == k') = false := by
    simp [Ne.symm h]
  simp [getField, List.find?, hb]

theorem getField_append (a b : JsRecord) (k : String) :
    getField (a ++ b) k = ((getField a k).or (getField b k)) := by
  induction a with
  | nil => simp [getField]
  | cons p l ih =>
    by_cases h : p.1 = k
    · simp [getField, List.find?, h]
    · have hb : (p.1 == k) = false := by simp [h]
      simpa [getField, List.find?, hb] using ih

theorem fieldEq_true_key {r : JsRecord} {pk : String} {id : Value}
    (h : fieldEq r pk id = true) : getField r pk = some id := by
  unfold fieldEq at h
  cases hg : getField r pk with
  | none => rw [hg] at h; cases h
  | some v =>
    rw [hg] at h
    rw [jsEq_eq_of_true h]

/-! ### The maximum computation of create -/

theorem foldl_jsMax_spec (l : List (Option Int)) :
    ∀ a : Int, (∀ x ∈ l, x.isSome = true) →
      ∃ m, List.foldl jsMax (some a) l = some m ∧ a ≤ m ∧
        (∀ n : Int, some n ∈ l → n ≤ m) ∧ (m = a ∨ some m ∈ l) := by
  induction l with
  | nil =>
    intro a _
    exact ⟨a, rfl, le_refl a, by simp, Or.inl rfl⟩
  | cons x xs ih =>
    intro a h
    obtain ⟨b, rfl⟩ := Option.isSome_iff_exists.mp (h x (by simp))
    obtain ⟨m, hm, hle, hub, hmem⟩ := ih (max a b) (fun y hy => h y (by simp [hy]))
    refine ⟨m, by simpa [jsMax] using hm, le_trans (le_max_left a b) hle, ?_, ?_⟩
    · intro n hn
      rcases List.mem_cons.mp hn with h1 | h2
      · have hnb : n = b := Option.some.inj h1
        exact hnb ▸ le_trans (le_max_right a b) hle
      · exact hub n h2
    · rcases hmem with rfl | hm2
      · rcases max_choice a b with h1 | h2
        · exact Or.inl h1
        · exact Or.inr (by rw [h2]; exact List.mem_cons_self _ _)
      · exact Or.inr (List.mem_cons_of_mem _ hm2)

theorem maxAll_spec (l : List (Option Int)) (hne : l ≠ [])
    (h : ∀ x ∈ l, x.isSome = true) :
    ∃ m, maxAll l = some m ∧ (∀ n : Int, some n ∈ l → n ≤ m) ∧ some m ∈ l := by
  cases l with
  | nil => exact absurd rfl hne
  | cons x xs =>
    obtain ⟨b, rfl⟩ := Option.isSome_iff_exists.mp (h x (List.mem_cons_self x xs))
    obtain ⟨m, hm, hle, hub, hmem⟩ := foldl_jsMax_spec xs b (fun y hy => h y (by simp [hy]))
    refine ⟨m, hm, ?_, ?_⟩
    · intro n hn
      rcases List.mem_cons.mp hn with h1 | h2
      · have hnb : n = b := Option.some.inj h1
        exact hnb ▸ hle
      · exact hub n h2
    · rcases hmem with rfl | hm2
      · exact List.mem_cons_self _ _
      · exact List.mem_cons_of_mem _ hm2

/-- Structure of a create call: the new record is the supplied fields with
the fresh numeric id consed in front, the new state appends it, the id is 1
on an empty store and one more than the attained maximum otherwise. -/
theorem create_parts (pk : String) (fields : JsRecord) (items : List JsRecord)
    (hnum : NumericKeys pk items) :
    ∃ m : Int,
      (DataService.create pk fields items).1 = (pk, Value.num m) :: fields ∧
      (DataService.create pk fields items).2 = items ++ [(DataService.create pk fields items).1] ∧
      (items = [] → m = 1) ∧
      (items ≠ [] →
        (∀ r ∈ items, ∀ n : Int, keyNumber r pk = some n → n < m) ∧
        (∃ r ∈ items, keyNumber r pk = some (m - 1))) := by
  cases items with
  | nil =>
    exact ⟨1, rfl, rfl, fun _ => rfl, fun hc => absurd rfl hc⟩
  | cons r rs =>
    have hne : (List.map (fun r => keyNumber r pk) (r :: rs)) ≠ [] := by simp
    have hsome : ∀ x ∈ List.map (fun r => keyNumber r pk) (r :: rs), x.isSome = true := by
      intro x hx
      obtain ⟨s, hs, rfl⟩ := List.mem_map.mp hx
      exact hnum s hs
    obtain ⟨m, hm, hub, hmem⟩ := maxAll_spec _ hne hsome
    refine ⟨m + 1, ?_, ?_, by simp, fun _ => ⟨?_, ?_⟩⟩
    · simp only [DataService.create, List.length_cons]
      rw [if_pos (Nat.succ_pos _), hm]
    · rfl
    · intro s hs n hn
      have hmemn : some n ∈ List.map (fun r => keyNumber r pk) (r :: rs) :=
        List.mem_map.mpr ⟨s, hs, hn⟩
      have := hub n hmemn
      omega
    · obtain ⟨s, hs, hkey⟩ := List.mem_map.mp hmem
      exact ⟨s, hs, by rw [hkey]; congr 1; omega⟩

/-! ### Lemmas about update and delete -/

theorem update_no_match (pk : String) (id : Value) (u : JsRecord) :
    ∀ items : List JsRecord, (∀ r ∈ items, fieldEq r pk id = false) →
      DataService.update pk id u items = (none, items) := by
  intro items
  induction items with
  | nil => intro _; rfl
  | cons r rs ih =>
    intro h
    have hr : fieldEq r pk id = false := h r (List.mem_cons_self r rs)
    have hrs := ih (fun s hs => h s (List.mem_cons_of_mem r hs))
    simp [DataService.update, hr, hrs]

theorem update_first_match (pk : String) (id : Value) (u : JsRecord) :
    ∀ (items : List JsRecord) (i : Nat) (old : JsRecord),
      items[i]? = some old → fieldEq old pk id = true →
      (∀ j, j < i → ∀ s, items[j]? = some s → fieldEq s pk id = false) →
      DataService.update pk id u items = (some (u ++ old), items.set i (u ++ old)) := by
  intro items
  induction items with
  | nil => intro i old hget _ _; simp at hget
  | cons r rs ih =>
    intro i old hget hmatch hfirst
    cases i with
    | zero =>
      have hro : r = old := by simpa using hget
      subst hro
      simp [DataService.update, hmatch]
    | succ n =>
      have hr : fieldEq r pk id = false :=
        hfirst 0 (Nat.succ_pos n) r (by simp)
      have htail := ih n old (by simpa using hget) hmatch
        (fun j hj s hs => hfirst (j + 1) (by omega) s (by simpa using hs))
      simp [DataService.update, hr, htail]

theorem update_keysOf_eq (pk : String) (id : Value) (u : JsRecord)
    (hu : getField u pk = none) :
    ∀ items : List JsRecord,
      keysOf pk (DataService.update pk id u items).2 = keysOf pk items := by
  intro items
  induction items with
  | nil => rfl
  | cons r rs ih =>
    by_cases h : fieldEq r pk id = true
    · have hmerge : getField (u ++ r) pk = getField r pk := by
        rw [getField_append, hu]; rfl
      simp [DataService.update, h, keysOf, hmerge]
    · have hb : fieldEq r pk id = false := by
        exact Bool.not_eq_true _ |>.mp h
      simp only [DataService.update, hb, Bool.false_eq_true, if_false, keysOf, List.map_cons]
      have := ih
      simp only [keysOf] at this
      rw [this]

theorem delete_no_match (pk : String) (id : Value) (items : List JsRecord)
    (h : ∀ r ∈ items, fieldEq r pk id = false) :
    DataService.delete pk id items = (false, items) := by
  have hfilter : items.filter (fun r => !(fieldEq r pk id)) = items :=
    List.filter_eq_self.mpr (fun r hr => by simp [h r hr])
  simp [DataService.delete, hfilter]

theorem filter_length_of_distinct (pk : String) (id : Value) :
    ∀ items : List JsRecord, DistinctKeys pk items →
      (∃ r ∈ items, fieldEq r pk id = true) →
      (items.filter (fun r => !(fieldEq r pk id))).length + 1 = items.length := by
  intro items
  induction items with
  | nil =>
    rintro _ ⟨r, hr, _⟩
    simp at hr
  | cons r rs ih =>
    intro hdist hex
    have hdist' : (getField r pk ∉ keysOf pk rs) ∧ DistinctKeys pk rs := by
      have : (getField r pk :: keysOf pk rs).Nodup := hdist
      exact List.nodup_cons.mp this
    by_cases h : fieldEq r pk id = true
    · have hkey := fieldEq_true_key h
      have hnomatch : ∀ s ∈ rs, fieldEq s pk id = false := by
        intro s hs
        by_contra hc
        have hs' : fieldEq s pk id = true := Bool.not_eq_false _ |>.mp hc
        have hskey := fieldEq_true_key hs'
        apply hdist'.1
        rw [hkey, ← hskey]
        exact List.mem_map_of_mem (fun t => getField t pk) hs
      have hkeep : rs.filter (fun s => !(fieldEq s pk id)) = rs :=
        List.filter_eq_self.mpr (fun s hs => by simp [hnomatch s hs])
      simp [List.filter_cons, h, hkeep]
    · have hb : fieldEq r pk id = false := Bool.not_eq_true _ |>.mp h
      have hex' : ∃ s ∈ rs, fieldEq s pk id = true := by
        rcases hex with ⟨s, hs, hmatch⟩
        rcases List.mem_cons.mp hs with rfl | htail
        · exact absurd hmatch (by simp [hb])
        · exact ⟨s, htail, hmatch⟩
      have := ih hdist'.2 hex'
      simp [List.filter_cons, hb]
      omega

theorem find?_first {α : Type} (p : α → Bool) :
    ∀ (l : List α) (r : α), l.find? p = some r →
      ∃ i : Nat, l[i]? = some r ∧ p r = true ∧
        ∀ j : Nat, j < i → ∀ s, l[j]? = some s → p s = false := by
  intro l
  induction l with
  | nil => intro r h; simp at h
  | cons x xs ih =>
    intro r h
    by_cases hx : p x = true
    · rw [List.find?_cons_of_pos _ hx] at h
      have hxr : x = r := Option.some.inj h
      subst hxr
      exact ⟨0, by simp, hx, fun j hj s _ => absurd hj (by omega)⟩
    · have hxf : p x = false := Bool.not_eq_true _ |>.mp hx
      rw [List.find?_cons_of_neg _ (by simp [hxf])] at h
      obtain ⟨i, hget, hp, hfirst⟩ := ih r h
      refine ⟨i + 1, by simpa using hget, hp, ?_⟩
      intro j hj s hs
      cases j with
      | zero =>
        have hsx : x = s := by simpa using hs
        exact hsx ▸ hxf
      | succ n => exact hfirst n (by omega) s (by simpa using hs)

theorem fieldEq_of_getField {r : JsRecord} {pk : String} {v : Value}
    (h : getField r pk = some v) (id : Value) : fieldEq r pk id = jsEq v id := by
  simp [fieldEq, h]

theorem keyNumber_eq_some {r : JsRecord} {pk : String} {n : Int} :
    keyNumber r pk = some n ↔ getField r pk = some (Value.num n) := by
  unfold keyNumber toNumber
  cases h : getField r pk with
  | none => simp
  | some v => cases v <;> simp

/-! ### The claims -/

/-- Claim C1: create assigns the new record the id max(existing ids) + 1 on a
non-empty sequence and 1 on an empty one, builds it as the supplied fields
with that id attached under the primary-key field, appends it at the end,
and returns it (the stated record is the returned one). -/
theorem create_assigns_max_plus_one (pk : String) (fields : JsRecord)
    (items : List JsRecord) (hnum : NumericKeys pk items) :
    (DataService.create pk fields items).2
        = items ++ [(DataService.create pk fields items).1] ∧
    (∀ k, k ≠ pk →
      getField (DataService.create pk fields items).1 k = getField fields k) ∧
    (∃ m : Int,
      getField (DataService.create pk fields items).1 pk = some (Value.num m) ∧
      (items = [] → m = 1) ∧
      (items ≠ [] →
        (∀ r ∈ items, ∀ n : Int, keyNumber r pk = some n → n < m) ∧
        (∃ r ∈ items, keyNumber r pk = some (m - 1)))) := by
  obtain ⟨m, h1, h2, h3, h4⟩ := create_parts pk fields items hnum
  refine ⟨h2, ?_, m, ?_, h3, h4⟩
  · intro k hk
    rw [h1]
    exact getField_cons_ne pk k _ fields hk
  · rw [h1]
    exact getField_cons_self pk _ fields

/-- Claim C7: on an id matching no record, getById returns absence, update
returns absence, delete returns false, and all three leave the sequence
unchanged (they are total functions, so none can throw). -/
theorem missing_id_not_found (pk : String) (id : Value) (updates : JsRecord)
    (items : List JsRecord) (h : ∀ r ∈ items, fieldEq r pk id = false) :
    DataService.getById pk id items = none ∧
    DataService.update pk id updates items = (none, items) ∧
    DataService.delete pk id items = (false, items) := by
  refine ⟨?_, update_no_match pk id updates items h, delete_no_match pk id items h⟩
  apply List.find?_eq_none.mpr
  intro r hr
  simp [h r hr]

/-- Claim C8: getById returns the first record in sequence order whose
primary-key field is strictly equal to the id, absence when none is, and
strict equality never identifies a string argument with a numeric key. -/
theorem getById_first_match_strict (pk : String) (id : Value)
    (items : List JsRecord) :
    (∀ r, DataService.getById pk id items = some r →
      ∃ i : Nat, items[i]? = some r ∧ fieldEq r pk id = true ∧
        ∀ j : Nat, j < i → ∀ s, items[j]? = some s → fieldEq s pk id = false) ∧
    (DataService.getById pk id items = none ↔
      ∀ r ∈ items, fieldEq r pk id = false) ∧
    (∀ (n : Int) (s : String),
      jsEq (Value.num n) (Value.str s) = false ∧
      jsEq (Value.str s) (Value.num n) = false) := by
  refine ⟨?_, ?_, ?_⟩
  · intro r h
    exact find?_first _ items r h
  · rw [DataService.getById, List.find?_eq_none]
    constructor
    · intro h r hr
      simpa using h r hr
    · intro h r hr
      simp [h r hr]
  · intro n s
    exact ⟨rfl, rfl⟩

/-- Claim C4, counterexample: on a sequence whose two records share the
primary-key value 1 (reachable, since update can overwrite the key), delete
removes both matching records, so the length drops by two, not by exactly
one as the claim states. -/
theorem delete_not_exactly_one_counterexample :
    (∃ r ∈ ([[("id", Value.num 1)], [("id", Value.num 1)]] : List JsRecord),
      fieldEq r "id" (Value.num 1) = true) ∧
    ((DataService.delete "id" (Value.num 1)
        [[("id", Value.num 1)], [("id", Value.num 1)]]).2).length ≠ 2 - 1 := by
  decide

/-- Claim C4 (amended): delete removes every record whose primary key equals
the id; when the sequence's primary-key values are pairwise distinct this
removes exactly one record (length drops by one) and returns true whenever a
match exists, and when no record matches it returns false and leaves the
sequence unchanged. -/
theorem delete_removes_matches (pk : String) (id : Value)
    (items : List JsRecord) (hdist : DistinctKeys pk items) :
    ((∃ r ∈ items, fieldEq r pk id = true) →
      (DataService.delete pk id items).1 = true ∧
      ((DataService.delete pk id items).2).length + 1 = items.length ∧
      (∀ r ∈ (DataService.delete pk id items).2, fieldEq r pk id = false) ∧
      ((DataService.delete pk id items).2).Sublist items) ∧
    ((∀ r ∈ items, fieldEq r pk id = false) →
      DataService.delete pk id items = (false, items)) := by
  refine ⟨?_, delete_no_match pk id items⟩
  intro hex
  have hlen := filter_length_of_distinct pk id items hdist hex
  have hne : ((items.filter (fun r => !(fieldEq r pk id))).length == items.length)
      = false := by
    simp only [beq_eq_false_iff_ne, ne_eq]
    omega
  have hdel : DataService.delete pk id items
      = (true, items.filter (fun r => !(fieldEq r pk id))) := by
    simp [DataService.delete, hne]
  refine ⟨by rw [hdel], by rw [hdel]; exact hlen, ?_, by rw [hdel]; exact List.filter_sublist items⟩
  intro r hr
  rw [hdel] at hr
  have := (List.mem_filter.mp hr).2
  simpa using this

/-- Claim C5: update on an id with a first matching record at position i
returns the shallow merge (fields of partialFields overlaid on the old
record, every field not named in partialFields unchanged) and replaces only
that record, leaving every other position and the length unchanged. -/
theorem update_shallow_merge (pk : String) (id : Value) (updates : JsRecord)
    (items : List JsRecord) (i : Nat) (old : JsRecord)
    (hget : items[i]? = some old) (hmatch : fieldEq old pk id = true)
    (hfirst : ∀ j : Nat, j < i → ∀ s, items[j]? = some s →
      fieldEq s pk id = false) :
    ∃ merged : JsRecord,
      (DataService.update pk id updates items).1 = some merged ∧
      (∀ k, getField merged k = ((getField updates k).or (getField old k))) ∧
      (∀ k, getField updates k = none → getField merged k = getField old k) ∧
      (DataService.update pk id updates items).2 = items.set i merged ∧
      ((DataService.update pk id updates items).2).length = items.length ∧
      (∀ j : Nat, j ≠ i →
        ((DataService.update pk id updates items).2)[j]? = items[j]?) := by
  have hupd := update_first_match pk id updates items i old hget hmatch hfirst
  refine ⟨updates ++ old, by rw [hupd], fun k => getField_append updates old k,
    ?_, by rw [hupd], ?_, ?_⟩
  · intro k hk
    rw [getField_append, hk]
    rfl
  · rw [hupd]
    exact List.length_set items i _
  · intro j hj
    rw [hupd]
    exact List.getElem?_set_ne (fun hc => hj hc.symm)

/-- Claim C6: on a sequence with numeric primary keys, create followed by
delete of the id the created record carries restores the sequence exactly
(original records, original order), and that delete reports true. -/
theorem create_then_delete_roundtrip (pk : String) (fields : JsRecord)
    (items : List JsRecord) (hnum : NumericKeys pk items) :
    ∃ v : Value,
      getField (DataService.create pk fields items).1 pk = some v ∧
      DataService.delete pk v (DataService.create pk fields items).2
        = (true, items) := by
  obtain ⟨m, h1, h2, h3, h4⟩ := create_parts pk fields items hnum
  refine ⟨Value.num m, by rw [h1]; exact getField_cons_self pk _ fields, ?_⟩
  have horig : ∀ r ∈ items, fieldEq r pk (Value.num m) = false := by
    intro r hr
    obtain ⟨n, hn⟩ := Option.isSome_iff_exists.mp (hnum r hr)
    have hg : getField r pk = some (Value.num n) := keyNumber_eq_some.mp hn
    have hlt : n < m :=
      (h4 (by rintro rfl; simp at hr)).1 r hr n hn
    rw [fieldEq_of_getField hg, jsEq_num_num]
    simp only [beq_eq_false_iff_ne, ne_eq]
    omega
  have hnew : fieldEq (DataService.create pk fields items).1 pk (Value.num m)
      = true := by
    rw [fieldEq_of_getField (by rw [h1]; exact getField_cons_self pk _ fields),
      jsEq_num_num]
    simp
  have hkeep : items.filter (fun r => !(fieldEq r pk (Value.num m))) = items :=
    List.filter_eq_self.mpr (fun r hr => by simp [horig r hr])
  have hfilter : ((DataService.create pk fields items).2).filter
      (fun r => !(fieldEq r pk (Value.num m))) = items := by
    rw [h2, List.filter_append, hkeep]
    simp [hnew]
  have hlen : (items.length == ((DataService.create pk fields items).2).length)
      = false := by
    rw [h2]
    simp
  simp only [DataService.delete, hfilter]
  rw [if_neg]
  simp only [hlen, Bool.false_eq_true, not_false_eq_true]

/-- Claim C2, counterexample: starting from the distinct-key sequence with
ids 1 and 2, update of id 1 with a partial record that sets the primary-key
field to 2 produces a sequence holding two records whose primary key is 2 —
update does not preserve pairwise distinctness of primary keys when the
partial fields contain the primary-key field. -/
theorem update_key_collision_counterexample :
    DistinctKeys "id" [[("id", Value.num 1)], [("id", Value.num 2)]] ∧
    ¬ DistinctKeys "id"
      (DataService.update "id" (Value.num 1) [("id", Value.num 2)]
        [[("id", Value.num 1)], [("id", Value.num 2)]]).2 := by
  decide

/-- Claim C2 (amended): starting from pairwise-distinct primary keys, create
preserves distinctness when the keys are numeric, delete always preserves
it, and update preserves it provided the partial fields do not contain the
primary-key field; an update whose partial fields set the primary key can
break it. -/
theorem crud_preserves_distinct_keys (pk : String) (items : List JsRecord)
    (hdist : DistinctKeys pk items) :
    (NumericKeys pk items →
      ∀ fields, DistinctKeys pk (DataService.create pk fields items).2) ∧
    (∀ id, DistinctKeys pk (DataService.delete pk id items).2) ∧
    (∀ id updates, getField updates pk = none →
      DistinctKeys pk (DataService.update pk id updates items).2) := by
  refine ⟨?_, ?_, ?_⟩
  · intro hnum fields
    obtain ⟨m, h1, h2, h3, h4⟩ := create_parts pk fields items hnum
    rw [DistinctKeys, keysOf, h2, List.map_append, h1]
    simp only [List.map_cons, List.map_nil]
    rw [getField_cons_self]
    rw [List.nodup_append]
    refine ⟨hdist, List.nodup_singleton _, ?_⟩
    intro a ha
    simp only [List.mem_singleton]
    obtain ⟨r, hr, rfl⟩ := List.mem_map.mp ha
    intro hcontra
    obtain ⟨n, hn⟩ := Option.isSome_iff_exists.mp (hnum r hr)
    have hg : getField r pk = some (Value.num n) := keyNumber_eq_some.mp hn
    have hlt : n < m := (h4 (by rintro rfl; simp at hr)).1 r hr n hn
    rw [hg] at hcontra
    have : n = m := by
      have := Option.some.inj hcontra
      injection this
    omega
  · intro id
    have hsub : ((DataService.delete pk id items).2).Sublist items := by
      simp only [DataService.delete]
      split
      · exact List.Sublist.refl items
      · exact List.filter_sublist items
    exact List.Nodup.sublist (hsub.map (fun r => getField r pk)) hdist
  · intro id updates hu
    rw [DistinctKeys, update_keysOf_eq pk id updates hu items]
    exact hdist

/-- Claim C3, counterexample: with two customer-tier records for customer 7,
getCustomerTier does not return all records whose foreign key equals the
parent id — it is a find, so the second matching record is absent from its
result. -/
theorem getCustomerTier_not_all_matches_counterexample :
    ¬ (∀ r ∈ ([[("CT_ID", Value.num 1), ("C_ID", Value.num 7)],
               [("CT_ID", Value.num 2), ("C_ID", Value.num 7)]] : List JsRecord),
        fieldEq r "C_ID" (Value.num 7) = true →
        r ∈ (getCustomerTier
              [[("CT_ID", Value.num 1), ("C_ID", Value.num 7)],
               [("CT_ID", Value.num 2), ("C_ID", Value.num 7)]] 7).toList) := by
  decide

/-- Claim C3 (amended): each of getBusinessOffers, getBusinessFeedback,
getBusinessAnalytics, getCustomerTransactions, getCustomerReferrals,
getCustomerFeedback, getCustomerFraudDetections and getTransactionRedemptions
returns exactly the records of its sequence whose foreign-key field equals
the given parent id, in the sequence's order; getCustomerTier instead
returns only the first record whose C_ID matches (or absence). -/
theorem relationship_queries_filter_except_tier (bid cid tid : Int)
    (offers feedbacks analytics transactions referrals frauds redemptions
      tiers : List JsRecord) :
    ((∀ r, r ∈ getBusinessOffers offers bid ↔
        r ∈ offers ∧ fieldEq r "B_ID" (Value.num bid) = true) ∧
      (getBusinessOffers offers bid).Sublist offers) ∧
    ((∀ r, r ∈ getBusinessFeedback feedbacks bid ↔
        r ∈ feedbacks ∧ fieldEq r "B_ID" (Value.num bid) = true) ∧
      (getBusinessFeedback feedbacks bid).Sublist feedbacks) ∧
    ((∀ r, r ∈ getBusinessAnalytics analytics bid ↔
        r ∈ analytics ∧ fieldEq r "B_ID" (Value.num bid) = true) ∧
      (getBusinessAnalytics analytics bid).Sublist analytics) ∧
    ((∀ r, r ∈ getCustomerTransactions transactions cid ↔
        r ∈ transactions ∧ fieldEq r "C_ID" (Value.num cid) = true) ∧
      (getCustomerTransactions transactions cid).Sublist transactions) ∧
    ((∀ r, r ∈ getCustomerReferrals referrals cid ↔
        r ∈ referrals ∧ fieldEq r "Referred_C_id" (Value.num cid) = true) ∧
      (getCustomerReferrals referrals cid).Sublist referrals) ∧
    ((∀ r, r ∈ getCustomerFeedback feedbacks cid ↔
        r ∈ feedbacks ∧ fieldEq r "C_ID" (Value.num cid) = true) ∧
      (getCustomerFeedback feedbacks cid).Sublist feedbacks) ∧
    ((∀ r, r ∈ getCustomerFraudDetections frauds cid ↔
        r ∈ frauds ∧ fieldEq r "C_ID" (Value.num cid) = true) ∧
      (getCustomerFraudDetections frauds cid).Sublist frauds) ∧
    ((∀ r, r ∈ getTransactionRedemptions redemptions tid ↔
        r ∈ redemptions ∧ fieldEq r "T_ID" (Value.num tid) = true) ∧
      (getTransactionRedemptions redemptions tid).Sublist redemptions) ∧
    ((∀ r, getCustomerTier tiers cid = some r →
        ∃ i : Nat, tiers[i]? = some r ∧ fieldEq r "C_ID" (Value.num cid) = true ∧
          ∀ j : Nat, j < i → ∀ s, tiers[j]? = some s →
            fieldEq s "C_ID" (Value.num cid) = false) ∧
      (getCustomerTier tiers cid = none ↔
        ∀ r ∈ tiers, fieldEq r "C_ID" (Value.num cid) = false)) := by
  refine ⟨⟨fun r => List.mem_filter, List.filter_sublist offers⟩,
    ⟨fun r => List.mem_filter, List.filter_sublist feedbacks⟩,
    ⟨fun r => List.mem_filter, List.filter_sublist analytics⟩,
    ⟨fun r => List.mem_filter, List.filter_sublist transactions⟩,
    ⟨fun r => List.mem_filter, List.filter_sublist referrals⟩,
    ⟨fun r => List.mem_filter, List.filter_sublist feedbacks⟩,
    ⟨fun r => List.mem_filter, List.filter_sublist frauds⟩,
    ⟨fun r => List.mem_filter, List.filter_sublist redemptions⟩,
    ?_, ?_⟩
  · intro r h
    exact find?_first _ tiers r h
  · rw [getCustomerTier, List.find?_eq_none]
    constructor
    · intro h r hr
      simpa using h r hr
    · intro h r hr
      simp [h r hr]

/-- Claim C9: ids of deleted records are reused — on the store holding ids 1
and 2, deleting the record with the maximum id 2 succeeds, and the next
create assigns the very same id 2 to the new record, so ids are unique only
within the current sequence, not across the store's lifetime. -/
theorem deleted_max_id_is_reused :
    (DataService.delete "id" (Value.num 2)
        [[("id", Value.num 1)], [("id", Value.num 2)]]).1 = true ∧
    getField (DataService.create "id" []
        ((DataService.delete "id" (Value.num 2)
            [[("id", Value.num 1)], [("id", Value.num 2)]]).2)).1 "id"
      = some (Value.num 2) := by
  decide

/-- Claim C10: update does not protect the primary key — if the partial
fields bind the primary-key field to v, the stored merged record carries
primary key v, and when v is strictly unequal to the updated id and no
other record matches that id, a subsequent getById on the old id returns
absence. -/
theorem update_overwrites_primary_key (pk : String) (id v : Value)
    (updates : JsRecord) (items : List JsRecord) (i : Nat) (old : JsRecord)
    (hget : items[i]? = some old) (hmatch : fieldEq old pk id = true)
    (hothers : ∀ j : Nat, j ≠ i → ∀ s, items[j]? = some s →
      fieldEq s pk id = false)
    (hpk : getField updates pk = some v) (hne : jsEq v id = false) :
    ∃ merged : JsRecord,
      (DataService.update pk id updates items).1 = some merged ∧
      getField merged pk = some v ∧
      DataService.getById pk id (DataService.update pk id updates items).2
        = none := by
  have hfirst : ∀ j : Nat, j < i → ∀ s, items[j]? = some s →
      fieldEq s pk id = false := fun j hj => hothers j (by omega)
  have hupd := update_first_match pk id updates items i old hget hmatch hfirst
  have hmkey : getField (updates ++ old) pk = some v := by
    rw [getField_append, hpk]
    rfl
  refine ⟨updates ++ old, by rw [hupd], hmkey, ?_⟩
  rw [hupd]
  apply List.find?_eq_none.mpr
  intro r hr
  obtain ⟨j, hj⟩ := List.mem_iff_getElem?.mp hr
  by_cases hji : j = i
  · subst hji
    have hilen : j < items.length := by
      by_contra hc
      rw [List.getElem?_eq_none (by omega : items.length ≤ j)] at hget
      cases hget
    rw [List.getElem?_set_eq_of_lt _ hilen] at hj
    have hrm : r = updates ++ old := (Option.some.inj hj).symm
    subst hrm
    rw [fieldEq_of_getField hmkey, hne]
    simp
  · rw [List.getElem?_set_ne (fun hc => hji hc.symm)] at hj
    have := hothers j hji r hj
    simp [this]

/-! ### Concrete witnesses -/

/-- Witness for claim C1 at the one-record store with id 1. -/
theorem create_assigns_max_plus_one_witness :
    NumericKeys "id" [[("id", Value.num 1)]] ∧
    ((DataService.create "id" [("name", Value.str "x")] [[("id", Value.num 1)]]).2
        = [[("id", Value.num 1)]]
          ++ [(DataService.create "id" [("name", Value.str "x")]
                [[("id", Value.num 1)]]).1] ∧
      (∀ k, k ≠ "id" →
        getField (DataService.create "id" [("name", Value.str "x")]
          [[("id", Value.num 1)]]).1 k = getField [("name", Value.str "x")] k) ∧
      (∃ m : Int,
        getField (DataService.create "id" [("name", Value.str "x")]
          [[("id", Value.num 1)]]).1 "id" = some (Value.num m) ∧
        ([[("id", Value.num 1)]] = ([] : List JsRecord) → m = 1) ∧
        ([[("id", Value.num 1)]] ≠ ([] : List JsRecord) →
          (∀ r ∈ [[("id", Value.num 1)]], ∀ n : Int,
            keyNumber r "id" = some n → n < m) ∧
          (∃ r ∈ [[("id", Value.num 1)]], keyNumber r "id" = some (m - 1))))) :=
  ⟨by decide,
    create_assigns_max_plus_one "id" [("name", Value.str "x")]
      [[("id", Value.num 1)]] (by decide)⟩

/-- Witness for claim C2 at the two-record store with ids 1 and 2. -/
theorem crud_preserves_distinct_keys_witness :
    DistinctKeys "id" [[("id", Value.num 1)], [("id", Value.num 2)]] ∧
    ((NumericKeys "id" [[("id", Value.num 1)], [("id", Value.num 2)]] →
      ∀ fields, DistinctKeys "id"
        (DataService.create "id" fields
          [[("id", Value.num 1)], [("id", Value.num 2)]]).2) ∧
    (∀ id, DistinctKeys "id"
      (DataService.delete "id" id
        [[("id", Value.num 1)], [("id", Value.num 2)]]).2) ∧
    (∀ id updates, getField updates "id" = none →
      DistinctKeys "id"
        (DataService.update "id" id updates
          [[("id", Value.num 1)], [("id", Value.num 2)]]).2)) :=
  ⟨by decide,
    crud_preserves_distinct_keys "id"
      [[("id", Value.num 1)], [("id", Value.num 2)]] (by decide)⟩

/-- Witness for claim C4 at the one-record store with id 1. -/
theorem delete_removes_matches_witness :
    DistinctKeys "id" [[("id", Value.num 1)]] ∧
    (((∃ r ∈ [[("id", Value.num 1)]], fieldEq r "id" (Value.num 1) = true) →
      (DataService.delete "id" (Value.num 1) [[("id", Value.num 1)]]).1 = true ∧
      ((DataService.delete "id" (Value.num 1) [[("id", Value.num 1)]]).2).length + 1
          = ([[("id", Value.num 1)]] : List JsRecord).length ∧
      (∀ r ∈ (DataService.delete "id" (Value.num 1) [[("id", Value.num 1)]]).2,
        fieldEq r "id" (Value.num 1) = false) ∧
      ((DataService.delete "id" (Value.num 1) [[("id", Value.num 1)]]).2).Sublist
        [[("id", Value.num 1)]]) ∧
    ((∀ r ∈ [[("id", Value.num 1)]], fieldEq r "id" (Value.num 1) = false) →
      DataService.delete "id" (Value.num 1) [[("id", Value.num 1)]]
        = (false, [[("id", Value.num 1)]]))) :=
  ⟨by decide,
    delete_removes_matches "id" (Value.num 1) [[("id", Value.num 1)]] (by decide)⟩

/-- Witness for claim C5: updating the name of the single record with id 1. -/
theorem update_shallow_merge_witness :
    ([[("id", Value.num 1), ("name", Value.str "a")]] : List JsRecord)[0]?
        = some [("id", Value.num 1), ("name", Value.str "a")] ∧
    fieldEq [("id", Value.num 1), ("name", Value.str "a")] "id" (Value.num 1)
        = true ∧
    (∀ j : Nat, j < 0 → ∀ s,
      ([[("id", Value.num 1), ("name", Value.str "a")]] : List JsRecord)[j]?
          = some s → fieldEq s "id" (Value.num 1) = false) ∧
    (∃ merged : JsRecord,
      (DataService.update "id" (Value.num 1) [("name", Value.str "b")]
        [[("id", Value.num 1), ("name", Value.str "a")]]).1 = some merged ∧
      (∀ k, getField merged k = ((getField [("name", Value.str "b")] k).or
        (getField [("id", Value.num 1), ("name", Value.str "a")] k))) ∧
      (∀ k, getField [("name", Value.str "b")] k = none →
        getField merged k
          = getField [("id", Value.num 1), ("name", Value.str "a")] k) ∧
      (DataService.update "id" (Value.num 1) [("name", Value.str "b")]
        [[("id", Value.num 1), ("name", Value.str "a")]]).2
          = ([[("id", Value.num 1), ("name", Value.str "a")]] : List JsRecord).set
              0 merged ∧
      ((DataService.update "id" (Value.num 1) [("name", Value.str "b")]
        [[("id", Value.num 1), ("name", Value.str "a")]]).2).length
          = ([[("id", Value.num 1), ("name", Value.str "a")]] : List JsRecord).length ∧
      (∀ j : Nat, j ≠ 0 →
        ((DataService.update "id" (Value.num 1) [("name", Value.str "b")]
          [[("id", Value.num 1), ("name", Value.str "a")]]).2)[j]?
            = ([[("id", Value.num 1), ("name", Value.str "a")]] : List JsRecord)[j]?)) :=
  ⟨by decide, by decide, fun j hj => absurd hj (Nat.not_lt_zero j),
    update_shallow_merge "id" (Value.num 1) [("name", Value.str "b")]
      [[("id", Value.num 1), ("name", Value.str "a")]] 0
      [("id", Value.num 1), ("name", Value.str "a")]
      (by decide) (by decide) (fun j hj => absurd hj (Nat.not_lt_zero j))⟩

/-- Witness for claim C6 at the one-record store with id 1. -/
theorem create_then_delete_roundtrip_witness :
    NumericKeys "id" [[("id", Value.num 1)]] ∧
    (∃ v : Value,
      getField (DataService.create "id" [] [[("id", Value.num 1)]]).1 "id"
          = some v ∧
      DataService.delete "id" v
          (DataService.create "id" [] [[("id", Value.num 1)]]).2
        = (true, [[("id", Value.num 1)]])) :=
  ⟨by decide,
    create_then_delete_roundtrip "id" [] [[("id", Value.num 1)]] (by decide)⟩

/-- Witness for claim C7: id 5 matches nothing in the one-record store. -/
theorem missing_id_not_found_witness :
    (∀ r ∈ [[("id", Value.num 1)]], fieldEq r "id" (Value.num 5) = false) ∧
    (DataService.getById "id" (Value.num 5) [[("id", Value.num 1)]] = none ∧
     DataService.update "id" (Value.num 5) [] [[("id", Value.num 1)]]
        = (none, [[("id", Value.num 1)]]) ∧
     DataService.delete "id" (Value.num 5) [[("id", Value.num 1)]]
        = (false, [[("id", Value.num 1)]])) :=
  ⟨by decide,
    missing_id_not_found "id" (Value.num 5) [] [[("id", Value.num 1)]] (by decide)⟩

/-- Witness for claim C10: rewriting the primary key 1 to 2 on the
single-record store makes the old id unfindable. -/
theorem update_overwrites_primary_key_witness :
    ([[("id", Value.num 1)]] : List JsRecord)[0]? = some [("id", Value.num 1)] ∧
    fieldEq [("id", Value.num 1)] "id" (Value.num 1) = true ∧
    (∀ j : Nat, j ≠ 0 → ∀ s,
      ([[("id", Value.num 1)]] : List JsRecord)[j]? = some s →
        fieldEq s "id" (Value.num 1) = false) ∧
    getField [("id", Value.num 2)] "id" = some (Value.num 2) ∧
    jsEq (Value.num 2) (Value.num 1) = false ∧
    (∃ merged : JsRecord,
      (DataService.update "id" (Value.num 1) [("id", Value.num 2)]
        [[("id", Value.num 1)]]).1 = some merged ∧
      getField merged "id" = some (Value.num 2) ∧
      DataService.getById "id" (Value.num 1)
        (DataService.update "id" (Value.num 1) [("id", Value.num 2)]
          [[("id", Value.num 1)]]).2 = none) :=
  ⟨by decide, by decide,
    by
      intro j hj s hs
      cases j with
      | zero => exact absurd rfl hj
      | succ n => simp at hs,
    by decide, by decide,
    update_overwrites_primary_key "id" (Value.num 1) (Value.num 2)
      [("id", Value.num 2)] [[("id", Value.num 1)]] 0 [("id", Value.num 1)]
      (by decide) (by decide)
      (by
        intro j hj s hs
        cases j with
        | zero => exact absurd rfl hj
        | succ n => simp at hs)
      (by decide) (by decide)⟩
